import Mathlib

/- Shallow embedding of src/compilador.py, a lexical scanner for a Pascal-like
language. The scanner state (class Lexer) keeps the source text, a cursor and a
line counter; here the consumed prefix is dropped, so the state is the remaining
character list together with the line counter. Python exceptions are modelled by
an explicit error type returned through Except. -/

namespace Compilador

/-- Token categories: the tuple of token-type string constants at the top of
compilador.py, one constructor per constant. -/
inductive TokenType where
  | ID | NUM | LITERAL | CAR
  | PROGRAM | VAR | BEGIN | END | IF | THEN | ELSE | WHILE | DO
  | OPASIGNA | OPREL | OPSUMA | OPMULT
  | PONTO | PONTO_VIRG | VIRGULA | DOIS_PONTOS
  | ABRE_PAR | FECHA_PAR | ABRE_COL | FECHA_COL
  | EOF
deriving DecidableEq

/-- Token record (class Token): kind, lexeme text and 1-based source line. -/
structure Token where
  tipo : TokenType
  lexema : String
  linha : Nat
deriving DecidableEq

/-- Errors the scanner can raise. `lexError` models `Lexer._error`, which raises
an Exception carrying the current line number and a human-readable message.
`typeError` models a Python runtime TypeError, which carries no line number: the
scanner can hit one by evaluating `None in `+-`` in state 3 of the numeric state
machine (its message is fixed by the Python runtime, not by the scanner). -/
inductive LexError where
  | lexError (linha : Nat) (msg : String)
  | typeError (msg : String)
deriving DecidableEq

/-- Message of the TypeError CPython raises for `None in some_string`. -/
def pyMembershipTypeErrorMsg : String :=
  "\x27in <string>\x27 requires string as left operand, not NoneType"

/-- Python `str.isdigit` for a single character, modelled faithfully for
codepoints below 0x100: the ASCII digits plus the Latin-1 superscript digits
(U+00B2, U+00B3, U+00B9). Codepoints at or above 0x100 are classified as
non-digits; no input considered in this development uses them. -/
def pyIsDigit (c : Char) : Bool :=
  ('0' ≤ c && c ≤ '9') || c.toNat == 0xB2 || c.toNat == 0xB3 || c.toNat == 0xB9

/-- Python `str.isalpha` for a single character, modelled faithfully for
codepoints below 0x100: ASCII letters plus the Latin-1 letters U+00AA, U+00B5,
U+00BA, U+00C0..U+00D6, U+00D8..U+00F6 and U+00F8..U+00FF. Codepoints at or
above 0x100 are classified as non-alphabetic; no input considered here uses
them. -/
def pyIsAlpha (c : Char) : Bool :=
  let n := c.toNat
  (0x41 ≤ n && n ≤ 0x5A) || (0x61 ≤ n && n ≤ 0x7A) ||
  n == 0xAA || n == 0xB5 || n == 0xBA ||
  (0xC0 ≤ n && n ≤ 0xD6) || (0xD8 ≤ n && n ≤ 0xF6) || (0xF8 ≤ n && n ≤ 0xFF)

/-- Python `str.isalnum` for a single character: alphabetic, digit, or numeric.
Below 0x100 the numeric-only characters are the vulgar fractions U+00BC, U+00BD,
U+00BE. -/
def pyIsAlnum (c : Char) : Bool :=
  pyIsAlpha c || pyIsDigit c || c.toNat == 0xBC || c.toNat == 0xBD || c.toNat == 0xBE

/-- Test used by the numeric state machine: Python `c.lower() == "e"`. Among the
codepoints below 0x100 exactly the characters e and E lowercase to e. -/
def pyLowerIsE (c : Char) : Bool := c == 'e' || c == 'E'

/-- Python `str.upper` of a single character, faithful for codepoints below
0x100 except the sharp s U+00DF, whose uppercase form is the two-character
string SS and which is therefore handled by `pyUpperList` instead. -/
def pyUpperChar (c : Char) : Char :=
  let n := c.toNat
  if 0x61 ≤ n && n ≤ 0x7A then Char.ofNat (n - 0x20)
  else if 0xE0 ≤ n && n ≤ 0xFE && n != 0xF7 then Char.ofNat (n - 0x20)
  else if n == 0xFF then Char.ofNat 0x178
  else if n == 0xB5 then Char.ofNat 0x39C
  else c

/-- Python `str.upper` over a list of characters, including the expansion of the
sharp s U+00DF to SS. -/
def pyUpperList : List Char → List Char
  | [] => []
  | c :: cs => (if c == 'ß' then ['S', 'S'] else [pyUpperChar c]) ++ pyUpperList cs

/-- The RESERVED_KEYWORDS dictionary: uppercased keyword text to token type. -/
def RESERVED_KEYWORDS : List (String × TokenType) :=
  [("PROGRAM", .PROGRAM), ("VAR", .VAR), ("BEGIN", .BEGIN), ("END", .END),
   ("IF", .IF), ("THEN", .THEN), ("ELSE", .ELSE), ("WHILE", .WHILE), ("DO", .DO)]

/-- Dictionary lookup `RESERVED_KEYWORDS.get(s)`. -/
def reservedGet (s : String) : Option TokenType :=
  (RESERVED_KEYWORDS.find? (fun p => p.1 == s)).map (fun p => p.2)

/-- Scanner state (class Lexer): `rest` is the source text from the cursor
position onward (so the current character is its head, None when empty), and
`line` is the line counter, starting at 1. -/
structure Lexer where
  rest : List Char
  line : Nat
deriving DecidableEq

/-- Lexer construction from a source string: cursor at position 0, line 1. -/
def mkLexer (s : String) : Lexer := { rest := s.toList, line := 1 }

/-- The character under the cursor, None (here: none) at end of input. -/
def currentChar (l : Lexer) : Option Char := l.rest.head?

/-- Lexer._peek: the character one position ahead of the cursor. -/
def peek (l : Lexer) : Option Char := l.rest.tail.head?

/-- Line-counter update performed by Lexer._advance: consuming a newline
increments the counter. -/
def bumpLine (c : Char) (line : Nat) : Nat := if c == '\n' then line + 1 else line

/-- Lexer._advance: consume one character, updating the line counter. At end of
input the state is unchanged (the Python cursor moves past the end but the
current character stays None and the line does not change). -/
def advance (l : Lexer) : Lexer :=
  match l.rest with
  | [] => l
  | c :: cs => { rest := cs, line := bumpLine c l.line }

/-- Whitespace set of _skip_whitespace and of the main loop: space, tab,
newline. -/
def isWhitespaceChar (c : Char) : Bool := c == ' ' || c == '\t' || c == '\n'

/-- Loop of Lexer._skip_whitespace on the remaining text and line counter. -/
def skipWsAux : List Char → Nat → List Char × Nat
  | [], line => ([], line)
  | c :: cs, line =>
    if isWhitespaceChar c then skipWsAux cs (bumpLine c line) else (c :: cs, line)

/-- Lexer._skip_whitespace. -/
def skipWhitespace (l : Lexer) : Lexer :=
  { rest := (skipWsAux l.rest l.line).1, line := (skipWsAux l.rest l.line).2 }

/-- Body of the brace-comment loop of Lexer._skip_comment, entered after the
opening brace was consumed: consume up to and including the closing brace, or
fail at end of input. -/
def skipBraceAux : List Char → Nat → Except LexError (List Char × Nat)
  | [], line => .error (.lexError line "Comentário \x27\x7b\x27 não finalizado.")
  | c :: cs, line =>
    if c == '\x7d' then .ok (cs, bumpLine c line)
    else skipBraceAux cs (bumpLine c line)

/-- Body of the parenthesis-star comment loop of Lexer._skip_comment, entered
after the opening two characters were consumed: scan until the star immediately
followed by a closing parenthesis, consume both, or fail at end of input. -/
def skipParenAux : List Char → Nat → Except LexError (List Char × Nat)
  | [], line => .error (.lexError line "Comentário \x27(*\x27 não finalizado.")
  | c :: cs, line =>
    if c == '*' && cs.head? == some ')' then
      .ok (cs.tail, bumpLine ')' (bumpLine c line))
    else skipParenAux cs (bumpLine c line)

/-- Lexer._skip_comment: returns true when a comment was skipped, false when
the current character opens no comment (in particular a lone opening
parenthesis), and an error for an unterminated comment. -/
def skipComment (l : Lexer) : Except LexError (Bool × Lexer) :=
  if currentChar l == some '\x7b' then
    match skipBraceAux l.rest.tail l.line with
    | .ok (r, ln) => .ok (true, { rest := r, line := ln })
    | .error e => .error e
  else if currentChar l == some '(' && peek l == some '*' then
    match skipParenAux l.rest.tail.tail l.line with
    | .ok (r, ln) => .ok (true, { rest := r, line := ln })
    | .error e => .error e
  else
    .ok (false, l)

/-- Loop of Lexer._id_or_keyword: the maximal alphanumeric run at the cursor.
Returns the collected lexeme, the remaining text and the line counter. -/
def idRunAux : List Char → Nat → List Char × List Char × Nat
  | [], line => ([], [], line)
  | c :: cs, line =>
    if pyIsAlnum c then
      let r := idRunAux cs (bumpLine c line)
      (c :: r.1, r.2.1, r.2.2)
    else ([], c :: cs, line)

/-- Lexer._id_or_keyword: collect the run, then look the uppercased lexeme up in
RESERVED_KEYWORDS; a hit gives a keyword token, otherwise an identifier token,
both carrying the original-casing lexeme and the starting line. -/
def idOrKeyword (l : Lexer) : Token × Lexer :=
  match reservedGet (String.mk (pyUpperList (idRunAux l.rest l.line).1)) with
  | some tt =>
    (⟨tt, String.mk (idRunAux l.rest l.line).1, l.line⟩,
     { rest := (idRunAux l.rest l.line).2.1, line := (idRunAux l.rest l.line).2.2 })
  | none =>
    (⟨.ID, String.mk (idRunAux l.rest l.line).1, l.line⟩,
     { rest := (idRunAux l.rest l.line).2.1, line := (idRunAux l.rest l.line).2.2 })

/-- States of the numeric finite state machine of Lexer._number. -/
inductive NumState where
  | s0 | s1 | s2 | s3 | s4 | s5
deriving DecidableEq

/-- Error message of state 1 of the numeric machine. -/
def msgS1 (lexeme : List Char) : String :=
  "Dígito esperado após \x27.\x27 no número \x27" ++ String.mk lexeme ++ "\x27"

/-- Error message of state 3 of the numeric machine. -/
def msgS3 (lexeme : List Char) : String :=
  "Sinal ou dígito esperado após \x27e\x27 no número \x27" ++ String.mk lexeme ++ "\x27"

/-- Error message of state 4 of the numeric machine. -/
def msgS4 (lexeme : List Char) : String :=
  "Dígito esperado após sinal do expoente em \x27" ++ String.mk lexeme ++ "\x27"

/-- Loop of Lexer._number: the numeric state machine, with the remaining text,
the current state, the accumulated lexeme and the line counter. State 3 at end
of input evaluates the Python expression `c in `+-`` with c = None, which
raises a runtime TypeError rather than the lexical error of the else branch;
every other state guards its character tests against None. -/
def numberAux : List Char → NumState → List Char → Nat →
    Except LexError (List Char × List Char × Nat)
  | [], .s0, lexeme, line => .ok (lexeme, [], line)
  | [], .s1, lexeme, line => .error (.lexError line (msgS1 lexeme))
  | [], .s2, lexeme, line => .ok (lexeme, [], line)
  | [], .s3, _, _ => .error (.typeError pyMembershipTypeErrorMsg)
  | [], .s4, lexeme, line => .error (.lexError line (msgS4 lexeme))
  | [], .s5, lexeme, line => .ok (lexeme, [], line)
  | c :: cs, .s0, lexeme, line =>
    if pyIsDigit c then numberAux cs .s0 (lexeme ++ [c]) (bumpLine c line)
    else if c == '.' then
      if cs.head? == some '.' then .ok (lexeme, c :: cs, line)
      else numberAux cs .s1 (lexeme ++ [c]) (bumpLine c line)
    else if pyLowerIsE c then numberAux cs .s3 (lexeme ++ [c]) (bumpLine c line)
    else .ok (lexeme, c :: cs, line)
  | c :: cs, .s1, lexeme, line =>
    if pyIsDigit c then numberAux cs .s2 (lexeme ++ [c]) (bumpLine c line)
    else .error (.lexError line (msgS1 lexeme))
  | c :: cs, .s2, lexeme, line =>
    if pyIsDigit c then numberAux cs .s2 (lexeme ++ [c]) (bumpLine c line)
    else if pyLowerIsE c then numberAux cs .s3 (lexeme ++ [c]) (bumpLine c line)
    else .ok (lexeme, c :: cs, line)
  | c :: cs, .s3, lexeme, line =>
    if c == '+' || c == '-' then numberAux cs .s4 (lexeme ++ [c]) (bumpLine c line)
    else if pyIsDigit c then numberAux cs .s5 (lexeme ++ [c]) (bumpLine c line)
    else .error (.lexError line (msgS3 lexeme))
  | c :: cs, .s4, lexeme, line =>
    if pyIsDigit c then numberAux cs .s5 (lexeme ++ [c]) (bumpLine c line)
    else .error (.lexError line (msgS4 lexeme))
  | c :: cs, .s5, lexeme, line =>
    if pyIsDigit c then numberAux cs .s5 (lexeme ++ [c]) (bumpLine c line)
    else .ok (lexeme, c :: cs, line)

/-- Lexer._number: run the state machine from state 0 with an empty lexeme; a
successful run yields a NUM token stamped with the starting line. -/
def number (l : Lexer) : Except LexError (Token × Lexer) :=
  match numberAux l.rest .s0 [] l.line with
  | .ok (lexeme, rest2, line2) =>
    .ok (⟨.NUM, String.mk lexeme, l.line⟩, { rest := rest2, line := line2 })
  | .error e => .error e

/-- Loop of Lexer._string_literal, entered after the opening quote was consumed:
a doubled quote appends one quote to the content and consumes both characters, a
single quote closes the literal, any other character is appended verbatim, and
end of input before the closing quote is an error. -/
def stringBodyAux : List Char → List Char → Nat →
    Except LexError (List Char × List Char × Nat)
  | [], _, line => .error (.lexError line "String literal não finalizada.")
  | c :: cs, content, line =>
    if c == '\x27' then
      match cs with
      | c2 :: cs2 =>
        if c2 == '\x27' then
          stringBodyAux cs2 (content ++ ['\x27']) (bumpLine c2 (bumpLine c line))
        else .ok (content, c2 :: cs2, bumpLine c line)
      | [] => .ok (content, [], bumpLine c line)
    else stringBodyAux cs (content ++ [c]) (bumpLine c line)

/-- Lexer._string_literal: consume the opening quote, run the body loop, then
classify by decoded length: exactly one character gives a CAR token, any other
length a LITERAL token, both stamped with the starting line. -/
def stringLiteral (l : Lexer) : Except LexError (Token × Lexer) :=
  match stringBodyAux l.rest.tail [] l.line with
  | .ok (content, rest2, line2) =>
    .ok (⟨if content.length == 1 then .CAR else .LITERAL, String.mk content, l.line⟩,
         { rest := rest2, line := line2 })
  | .error e => .error e

/-- The single_char_tokens dictionary of get_next_token. -/
def singleCharTokens : List (Char × TokenType) :=
  [('<', .OPREL), ('>', .OPREL), ('=', .OPREL),
   ('+', .OPSUMA), ('-', .OPSUMA), ('*', .OPMULT), ('/', .OPMULT),
   (';', .PONTO_VIRG), (',', .VIRGULA), ('.', .PONTO), (':', .DOIS_PONTOS),
   ('(', .ABRE_PAR), (')', .FECHA_PAR), ('[', .ABRE_COL), (']', .FECHA_COL)]

/-- Dictionary lookup `single_char_tokens.get(c)`. -/
def singleGet (c : Char) : Option TokenType :=
  (singleCharTokens.find? (fun p => p.1 == c)).map (fun p => p.2)

/-- Token-recognition part of one iteration of the get_next_token main loop,
reached when the current character c neither is whitespace nor opens a comment:
letters go to _id_or_keyword, digits to _number, a quote to _string_literal,
then the two-character operators are tried in source order, then the
single-character table, and an unrecognized character raises the lexical
error. -/
def dispatch (c : Char) (l : Lexer) : Except LexError (Token × Lexer) :=
  if pyIsAlpha c then .ok (idOrKeyword l)
  else if pyIsDigit c then number l
  else if c == '\x27' then stringLiteral l
  else if c == ':' && peek l == some '=' then
    .ok (⟨.OPASIGNA, ":=", l.line⟩, advance (advance l))
  else if c == '<' && peek l == some '>' then
    .ok (⟨.OPREL, "<>", l.line⟩, advance (advance l))
  else if c == '<' && peek l == some '=' then
    .ok (⟨.OPREL, "<=", l.line⟩, advance (advance l))
  else if c == '>' && peek l == some '=' then
    .ok (⟨.OPREL, ">=", l.line⟩, advance (advance l))
  else
    match singleGet c with
    | some tt => .ok (⟨tt, String.mk [c], l.line⟩, advance l)
    | none =>
      .error (.lexError l.line ("Caractere inesperado: \x27" ++ String.mk [c] ++ "\x27"))

/-- Main loop of Lexer.get_next_token, with explicit fuel bounding the number of
loop iterations; none means the fuel ran out. Each iteration either returns (end
of input gives the EOF token, otherwise the dispatch result) or consumes at
least one character by skipping whitespace or a comment, so fuel exceeding the
length of the remaining text always suffices (proved below). -/
def getNextTokenFuel : Nat → Lexer → Option (Except LexError (Token × Lexer))
  | 0, _ => none
  | fuel + 1, l =>
    match l.rest with
    | [] => some (.ok (⟨.EOF, "EOF", l.line⟩, l))
    | c :: _ =>
      if isWhitespaceChar c then
        getNextTokenFuel fuel (skipWhitespace l)
      else if c == '\x7b' || c == '(' then
        match skipComment l with
        | .error e => some (.error e)
        | .ok (true, l2) => getNextTokenFuel fuel l2
        | .ok (false, l2) => some (dispatch c l2)
      else
        some (dispatch c l)

/-- Lexer.get_next_token: run the main loop with sufficient fuel. The default
branch of getD is unreachable: the theorem getNextTokenFuel_suff below shows the
fuel always suffices. -/
def getNextToken (l : Lexer) : Except LexError (Token × Lexer) :=
  (getNextTokenFuel (l.rest.length + 1) l).getD
    (.error (.lexError 0 "fuel exhausted (unreachable)"))

/-- Repeated calls: scan the first n tokens of the remaining input. -/
def scanN : Nat → Lexer → Except LexError (List Token)
  | 0, _ => .ok []
  | n + 1, l =>
    match getNextToken l with
    | .error e => .error e
    | .ok (t, l2) =>
      match scanN n l2 with
      | .error e => .error e
      | .ok ts => .ok (t :: ts)

/-- Result of the call made n calls after the scanner reached state l: callFrom
l 0 is the next call, and each further index chains one more call on the state
the previous call returned. -/
def callFrom (l : Lexer) : Nat → Except LexError (Token × Lexer)
  | 0 => getNextToken l
  | n + 1 =>
    match callFrom l n with
    | .ok (_, l3) => getNextToken l3
    | .error e => .error e

/-- One skipping step of the get_next_token main loop: either the current
character is whitespace and the whitespace run is skipped, or a comment is
skipped. -/
inductive SkipStep : Lexer → Lexer → Prop where
  | ws : ∀ (l : Lexer) (c : Char) (cs : List Char),
      l.rest = c :: cs → isWhitespaceChar c = true → SkipStep l (skipWhitespace l)
  | comment : ∀ (l l2 : Lexer), skipComment l = .ok (true, l2) → SkipStep l l2

/-- Finitely many skipping steps of the get_next_token main loop. -/
inductive SkipStar : Lexer → Lexer → Prop where
  | refl : ∀ (l : Lexer), SkipStar l l
  | step : ∀ (a b c : Lexer), SkipStep a b → SkipStar b c → SkipStar a c

/-- Whitespace skipping never lengthens the remaining text. -/
theorem skipWsAux_length : ∀ (cs : List Char) (line : Nat),
    (skipWsAux cs line).1.length ≤ cs.length := by
  intro cs
  induction cs with
  | nil => intro line; simp [skipWsAux]
  | cons c cs ih =>
    intro line
    simp only [skipWsAux]
    split
    · exact Nat.le_trans (ih _) (Nat.le_succ _)
    · simp

/-- The brace-comment body loop consumes at least one character on success. -/
theorem skipBraceAux_length : ∀ (cs : List Char) (line : Nat) (r : List Char) (ln : Nat),
    skipBraceAux cs line = .ok (r, ln) → r.length < cs.length := by
  intro cs
  induction cs with
  | nil => intro line r ln h; simp [skipBraceAux] at h
  | cons c cs ih =>
    intro line r ln h
    simp only [skipBraceAux] at h
    split at h
    · simp only [Except.ok.injEq, Prod.mk.injEq] at h
      obtain ⟨h1, _⟩ := h
      subst h1
      simp
    · exact Nat.lt_trans (ih _ _ _ h) (Nat.lt_succ_self _)

/-- The parenthesis-star comment body loop consumes at least one character on
success. -/
theorem skipParenAux_length : ∀ (cs : List Char) (line : Nat) (r : List Char) (ln : Nat),
    skipParenAux cs line = .ok (r, ln) → r.length < cs.length := by
  intro cs
  induction cs with
  | nil => intro line r ln h; simp [skipParenAux] at h
  | cons c cs ih =>
    intro line r ln h
    simp only [skipParenAux] at h
    split at h
    · simp only [Except.ok.injEq, Prod.mk.injEq] at h
      obtain ⟨h1, _⟩ := h
      subst h1
      have : cs.tail.length ≤ cs.length := by cases cs <;> simp
      simp only [List.length_cons]
      omega
    · exact Nat.lt_trans (ih _ _ _ h) (Nat.lt_succ_self _)

/-- Skipping a comment strictly shortens the remaining text. -/
theorem skipComment_length {l l2 : Lexer} (h : skipComment l = .ok (true, l2)) :
    l2.rest.length < l.rest.length := by
  unfold skipComment at h
  split at h
  · rename_i hc
    have hc2 : l.rest.head? = some '\x7b' := by
      simpa [currentChar] using hc
    obtain ⟨cs, hrest⟩ : ∃ cs, l.rest = '\x7b' :: cs := by
      cases hr : l.rest with
      | nil => rw [hr] at hc2; simp at hc2
      | cons a as =>
        rw [hr] at hc2
        simp at hc2
        exact ⟨as, by rw [hc2]⟩
    split at h
    · rename_i r ln heq
      simp only [Except.ok.injEq, Prod.mk.injEq] at h
      obtain ⟨_, h2⟩ := h
      subst h2
      have := skipBraceAux_length _ _ _ _ heq
      rw [hrest] at this ⊢
      simp at this ⊢
      omega
    · simp at h
  · split at h
    · rename_i hc
      have hc1 : l.rest.head? = some '(' := by
        have := (Bool.and_eq_true _ _).mp hc
        simpa [currentChar] using this.1
      have hc2 : l.rest.tail.head? = some '*' := by
        have := (Bool.and_eq_true _ _).mp hc
        simpa [peek] using this.2
      obtain ⟨cs, hrest⟩ : ∃ cs, l.rest = '(' :: '*' :: cs := by
        cases hr : l.rest with
        | nil => rw [hr] at hc1; simp at hc1
        | cons a as =>
          rw [hr] at hc1 hc2
          simp at hc1
          cases has : as with
          | nil => rw [has] at hc2; simp at hc2
          | cons b bs =>
            rw [has] at hc2
            simp at hc2
            exact ⟨bs, by rw [hc1, hc2]⟩
      split at h
      · rename_i r ln heq
        simp only [Except.ok.injEq, Prod.mk.injEq] at h
        obtain ⟨_, h2⟩ := h
        subst h2
        have := skipParenAux_length _ _ _ _ heq
        rw [hrest] at this ⊢
        simp at this ⊢
        omega
      · simp at h
    · simp only [Except.ok.injEq, Prod.mk.injEq] at h
      exact absurd h.1 (by simp)

/-- Fuel exceeding the length of the remaining text always suffices for the
main loop: every iteration that does not return consumes at least one
character. -/
theorem getNextTokenFuel_suff : ∀ (fuel : Nat) (l : Lexer), l.rest.length < fuel →
    (getNextTokenFuel fuel l).isSome = true := by
  intro fuel
  induction fuel with
  | zero => intro l h; omega
  | succ n ih =>
    intro l h
    simp only [getNextTokenFuel]
    split
    · simp
    · rename_i c cs hrest
      split
      · rename_i hws
        apply ih
        have h1 : (skipWsAux cs (bumpLine c l.line)).1.length ≤ cs.length :=
          skipWsAux_length _ _
        have h2 : l.rest.length = cs.length + 1 := by rw [hrest]; simp
        simp only [skipWhitespace, hrest, skipWsAux, hws, if_pos]
        omega
      · split
        · split
          · simp
          · rename_i l2 heq
            apply ih
            have := skipComment_length heq
            omega
          · simp
        · simp

/-- Characterization of getNextToken through its fuelled form. -/
theorem getNextToken_eq_of_fuel {l : Lexer} {r : Except LexError (Token × Lexer)}
    (h : getNextTokenFuel (l.rest.length + 1) l = some r) : getNextToken l = r := by
  unfold getNextToken
  rw [h]
  rfl

/-- The fuelled main loop with fuel one more than the remaining length computes
exactly getNextToken. -/
theorem getNextToken_spec (l : Lexer) :
    getNextTokenFuel (l.rest.length + 1) l = some (getNextToken l) := by
  have h := getNextTokenFuel_suff (l.rest.length + 1) l (Nat.lt_succ_self _)
  cases hf : getNextTokenFuel (l.rest.length + 1) l with
  | none => rw [hf] at h; simp at h
  | some r => rw [getNextToken_eq_of_fuel hf]

/-- At end of input getNextToken returns the EOF token and leaves the state
unchanged. -/
theorem getNextToken_nil {l : Lexer} (h : l.rest = []) :
    getNextToken l = .ok (⟨.EOF, "EOF", l.line⟩, l) := by
  apply getNextToken_eq_of_fuel
  rw [h]
  simp [getNextTokenFuel, h]

/-- Newlines are not alphanumeric (used for lexeme and line facts). -/
theorem pyIsAlnum_ne_newline {c : Char} (h : pyIsAlnum c = true) : c ≠ '\n' := by
  intro hc
  subst hc
  exact absurd h (by decide)

/-- Newlines are not digits. -/
theorem pyIsDigit_ne_newline {c : Char} (h : pyIsDigit c = true) : c ≠ '\n' := by
  intro hc
  subst hc
  exact absurd h (by decide)

/-- An identifier run contains no newline: every collected character is
alphanumeric. -/
theorem idRunAux_no_newline : ∀ (cs : List Char) (line : Nat),
    '\n' ∉ (idRunAux cs line).1 := by
  intro cs
  induction cs with
  | nil => intro line; simp [idRunAux]
  | cons c cs ih =>
    intro line
    simp only [idRunAux]
    split
    · rename_i h
      intro hmem
      simp only [List.mem_cons] at hmem
      rcases hmem with h1 | h1
      · exact pyIsAlnum_ne_newline h h1.symm
      · exact ih _ h1
    · simp

/-- Membership in a one-element extension of a list. -/
theorem mem_snoc_ne {a c : Char} {lexeme : List Char} (h : a ∈ lexeme ++ [c])
    (hne : a ≠ c) : a ∈ lexeme := by
  rcases List.mem_append.mp h with h1 | h1
  · exact h1
  · simp only [List.mem_singleton] at h1
    exact absurd h1 hne

/-- The numeric state machine appends only digits, the decimal point, exponent
markers and signs to the lexeme, so a successful run starting from a
newline-free lexeme yields a newline-free lexeme. -/
theorem numberAux_newline : ∀ (rest : List Char) (s : NumState) (lexeme : List Char)
    (line : Nat) (lx rest2 : List Char) (line2 : Nat),
    numberAux rest s lexeme line = .ok (lx, rest2, line2) → '\n' ∈ lx → '\n' ∈ lexeme := by
  intro rest
  induction rest with
  | nil =>
    intro s lexeme line lx rest2 line2 h hm
    cases s <;> simp [numberAux] at h <;> (obtain ⟨h1, -⟩ := h; subst h1; exact hm)
  | cons c cs ih =>
    intro s lexeme line lx rest2 line2 h hm
    cases s with
    | s0 =>
      simp only [numberAux] at h
      split at h
      · rename_i hc
        refine mem_snoc_ne (ih _ _ _ _ _ _ h hm) ?_
        intro he
        rw [← he] at hc
        exact absurd hc (by decide)
      · split at h
        · split at h
          · simp only [Except.ok.injEq, Prod.mk.injEq] at h
            obtain ⟨h1, -⟩ := h
            subst h1
            exact hm
          · rename_i hc _
            refine mem_snoc_ne (ih _ _ _ _ _ _ h hm) ?_
            intro he
            rw [← he] at hc
            exact absurd hc (by decide)
        · split at h
          · rename_i hc
            refine mem_snoc_ne (ih _ _ _ _ _ _ h hm) ?_
            intro he
            rw [← he] at hc
            exact absurd hc (by decide)
          · simp only [Except.ok.injEq, Prod.mk.injEq] at h
            obtain ⟨h1, -⟩ := h
            subst h1
            exact hm
    | s1 =>
      simp only [numberAux] at h
      split at h
      · rename_i hc
        refine mem_snoc_ne (ih _ _ _ _ _ _ h hm) ?_
        intro he
        rw [← he] at hc
        exact absurd hc (by decide)
      · simp at h
    | s2 =>
      simp only [numberAux] at h
      split at h
      · rename_i hc
        refine mem_snoc_ne (ih _ _ _ _ _ _ h hm) ?_
        intro he
        rw [← he] at hc
        exact absurd hc (by decide)
      · split at h
        · rename_i hc
          refine mem_snoc_ne (ih _ _ _ _ _ _ h hm) ?_
          intro he
          rw [← he] at hc
          exact absurd hc (by decide)
        · simp only [Except.ok.injEq, Prod.mk.injEq] at h
          obtain ⟨h1, -⟩ := h
          subst h1
          exact hm
    | s3 =>
      simp only [numberAux] at h
      split at h
      · rename_i hc
        refine mem_snoc_ne (ih _ _ _ _ _ _ h hm) ?_
        intro he
        rw [← he] at hc
        exact absurd hc (by decide)
      · split at h
        · rename_i hc
          refine mem_snoc_ne (ih _ _ _ _ _ _ h hm) ?_
          intro he
          rw [← he] at hc
          exact absurd hc (by decide)
        · simp at h
    | s4 =>
      simp only [numberAux] at h
      split at h
      · rename_i hc
        refine mem_snoc_ne (ih _ _ _ _ _ _ h hm) ?_
        intro he
        rw [← he] at hc
        exact absurd hc (by decide)
      · simp at h
    | s5 =>
      simp only [numberAux] at h
      split at h
      · rename_i hc
        refine mem_snoc_ne (ih _ _ _ _ _ _ h hm) ?_
        intro he
        rw [← he] at hc
        exact absurd hc (by decide)
      · simp only [Except.ok.injEq, Prod.mk.injEq] at h
        obtain ⟨h1, -⟩ := h
        subst h1
        exact hm

/-- The reserved-word table maps to keyword kinds only: never to EOF nor to a
literal kind. -/
theorem reservedGet_not_special {s : String} {tt : TokenType} (h : reservedGet s = some tt) :
    tt ≠ .EOF ∧ tt ≠ .CAR ∧ tt ≠ .LITERAL := by
  unfold reservedGet at h
  cases hf : RESERVED_KEYWORDS.find? (fun p => p.1 == s) with
  | none => rw [hf] at h; simp at h
  | some p =>
    rw [hf] at h
    simp only [Option.map_some', Option.some.injEq] at h
    subst h
    have hp := List.mem_of_find?_eq_some hf
    simp only [RESERVED_KEYWORDS, List.mem_cons, List.not_mem_nil, or_false] at hp
    rcases hp with h | h | h | h | h | h | h | h | h <;> subst h <;> exact ⟨by decide, by decide, by decide⟩

/-- The single-character table maps to punctuation and operator kinds only, and
its keys exclude the newline character. -/
theorem singleGet_not_special {c : Char} {tt : TokenType} (h : singleGet c = some tt) :
    (tt ≠ .EOF ∧ tt ≠ .CAR ∧ tt ≠ .LITERAL) ∧ c ≠ '\n' := by
  unfold singleGet at h
  cases hf : singleCharTokens.find? (fun p => p.1 == c) with
  | none => rw [hf] at h; simp at h
  | some p =>
    rw [hf] at h
    simp only [Option.map_some', Option.some.injEq] at h
    subst h
    have hpred := List.find?_some hf
    have hc : p.1 = c := by simpa using hpred
    have hmem := List.mem_of_find?_eq_some hf
    simp only [singleCharTokens, List.mem_cons, List.not_mem_nil, or_false] at hmem
    subst hc
    rcases hmem with h | h | h | h | h | h | h | h | h | h | h | h | h | h | h <;>
      subst h <;> exact ⟨⟨by decide, by decide, by decide⟩, by decide⟩

/-- Facts about a successful _number call: the token is stamped with the
starting line, its kind is NUM and its lexeme contains no newline. -/
theorem number_facts {l l2 : Lexer} {t : Token} (h : number l = .ok (t, l2)) :
    t.linha = l.line ∧ t.tipo = .NUM ∧ '\n' ∉ t.lexema.toList := by
  unfold number at h
  split at h
  · rename_i lexeme rest2 line2 heq
    simp only [Except.ok.injEq, Prod.mk.injEq] at h
    obtain ⟨h1, -⟩ := h
    subst h1
    refine ⟨rfl, rfl, ?_⟩
    intro hm
    have hn : '\n' ∈ ([] : List Char) := numberAux_newline _ _ _ _ _ _ _ heq hm
    simp at hn
  · simp at h

/-- Facts about _id_or_keyword: the token is stamped with the starting line, its
kind is an identifier or keyword kind, and its lexeme contains no newline. -/
theorem idOrKeyword_facts (l : Lexer) :
    (idOrKeyword l).1.linha = l.line ∧ (idOrKeyword l).1.tipo ≠ .EOF ∧
    (idOrKeyword l).1.tipo ≠ .CAR ∧ (idOrKeyword l).1.tipo ≠ .LITERAL ∧
    '\n' ∉ (idOrKeyword l).1.lexema.toList := by
  unfold idOrKeyword
  split
  · rename_i tt heq
    obtain ⟨h1, h2, h3⟩ := reservedGet_not_special heq
    exact ⟨rfl, h1, h2, h3, idRunAux_no_newline _ _⟩
  · refine ⟨rfl, ?_, ?_, ?_, idRunAux_no_newline _ _⟩ <;> simp

/-- Facts about a successful _string_literal call: the token is stamped with the
starting line, its kind is CAR or LITERAL, and the kind is CAR exactly when the
decoded content has one character. -/
theorem stringLiteral_facts {l l2 : Lexer} {t : Token} (h : stringLiteral l = .ok (t, l2)) :
    t.linha = l.line ∧ (t.tipo = .CAR ∨ t.tipo = .LITERAL) ∧
    (t.tipo = .CAR ↔ t.lexema.length = 1) := by
  unfold stringLiteral at h
  split at h
  · rename_i content rest2 line2 heq
    simp only [Except.ok.injEq, Prod.mk.injEq] at h
    obtain ⟨h1, -⟩ := h
    subst h1
    have hlexlen : (String.mk content).length = content.length := rfl
    refine ⟨rfl, ?_, ?_⟩
    · by_cases hlen : content.length = 1
      · have hbeq : (content.length == 1) = true := by simpa using hlen
        left
        simp [hbeq]
      · have hbeq : (content.length == 1) = false := by simpa using hlen
        right
        simp [hbeq]
    · by_cases hlen : content.length = 1
      · have hbeq : (content.length == 1) = true := by simpa using hlen
        simp only [hbeq, if_true]
        simp [hlexlen, hlen]
      · have hbeq : (content.length == 1) = false := by simpa using hlen
        simp only [hbeq, if_false]
        simp [hlexlen, hlen]
  · simp at h

/-- A comment-skip call that returns false leaves the state unchanged. -/
theorem skipComment_false {l l2 : Lexer} (h : skipComment l = .ok (false, l2)) : l2 = l := by
  unfold skipComment at h
  split at h
  · split at h <;> simp at h
  · split at h
    · split at h <;> simp at h
    · simp only [Except.ok.injEq, Prod.mk.injEq] at h
      exact h.2.symm

/-- Facts about the dispatch step: the token is stamped with the line of the
dispatch state, it is never the EOF token, literal kinds come exactly from
_string_literal, and every non-literal token has a newline-free lexeme. -/
theorem dispatch_facts {c : Char} {l l2 : Lexer} {t : Token}
    (h : dispatch c l = .ok (t, l2)) :
    t.linha = l.line ∧ t.tipo ≠ .EOF ∧
    ((t.tipo = .CAR ∨ t.tipo = .LITERAL) → stringLiteral l = .ok (t, l2)) ∧
    (t.tipo ≠ .CAR → t.tipo ≠ .LITERAL → '\n' ∉ t.lexema.toList) := by
  unfold dispatch at h
  split at h
  · simp only [Except.ok.injEq] at h
    obtain ⟨h1, h2, h3, h4, h5⟩ := idOrKeyword_facts l
    rw [h] at h1 h2 h3 h4 h5
    exact ⟨h1, h2, fun hc => (hc.elim (fun x => absurd x h3) (fun x => absurd x h4)),
           fun _ _ => h5⟩
  · split at h
    · obtain ⟨h1, h2, h3⟩ := number_facts h
      refine ⟨h1, ?_, ?_, fun _ _ => h3⟩
      · rw [h2]; decide
      · intro hc
        rw [h2] at hc
        rcases hc with hc | hc <;> simp at hc
    · split at h
      · obtain ⟨h1, h2, -⟩ := stringLiteral_facts h
        refine ⟨h1, ?_, fun _ => h, ?_⟩
        · intro he
          rw [he] at h2
          rcases h2 with h2 | h2 <;> simp at h2
        · intro hC hL
          rcases h2 with x | x
          · exact absurd x hC
          · exact absurd x hL
      · split at h
        · simp only [Except.ok.injEq, Prod.mk.injEq] at h
          obtain ⟨h1, -⟩ := h
          subst h1
          refine ⟨rfl, ?_, ?_, fun _ _ => ?_⟩
          · simp
          · rintro (hc | hc) <;> simp at hc
          · show ('\n' : Char) ∉ String.toList ":="
            decide
        · split at h
          · simp only [Except.ok.injEq, Prod.mk.injEq] at h
            obtain ⟨h1, -⟩ := h
            subst h1
            refine ⟨rfl, ?_, ?_, fun _ _ => ?_⟩
            · simp
            · rintro (hc | hc) <;> simp at hc
            · show ('\n' : Char) ∉ String.toList "<>"
              decide
          · split at h
            · simp only [Except.ok.injEq, Prod.mk.injEq] at h
              obtain ⟨h1, -⟩ := h
              subst h1
              refine ⟨rfl, ?_, ?_, fun _ _ => ?_⟩
              · simp
              · rintro (hc | hc) <;> simp at hc
              · show ('\n' : Char) ∉ String.toList "<="
                decide
            · split at h
              · simp only [Except.ok.injEq, Prod.mk.injEq] at h
                obtain ⟨h1, -⟩ := h
                subst h1
                refine ⟨rfl, ?_, ?_, fun _ _ => ?_⟩
                · simp
                · rintro (hc | hc) <;> simp at hc
                · show ('\n' : Char) ∉ String.toList ">="
                  decide
              · split at h
                · rename_i tt heq
                  simp only [Except.ok.injEq, Prod.mk.injEq] at h
                  obtain ⟨h1, -⟩ := h
                  subst h1
                  obtain ⟨⟨e1, e2, e3⟩, hc⟩ := singleGet_not_special heq
                  refine ⟨rfl, e1, ?_, ?_⟩
                  · rintro (x | x)
                    · exact absurd x e2
                    · exact absurd x e3
                  · intro _ _ hm
                    simp only [String.toList] at hm
                    have : ('\n' : Char) ∈ [c] := hm
                    simp at this
                    exact hc this.symm
                · simp at h

/-- Decomposition of a successful get_next_token call: finitely many skipping
steps lead to a state from which either the input is exhausted and the EOF token
is returned, or the token comes from the dispatch step on the current
character. -/
theorem fuel_decomp : ∀ (fuel : Nat) (l : Lexer) (t : Token) (l2 : Lexer),
    getNextTokenFuel fuel l = some (.ok (t, l2)) →
    ∃ lm, SkipStar l lm ∧
      ((lm.rest = [] ∧ t = ⟨.EOF, "EOF", lm.line⟩ ∧ l2 = lm) ∨
       ∃ c cs, lm.rest = c :: cs ∧ dispatch c lm = .ok (t, l2)) := by
  intro fuel
  induction fuel with
  | zero => intro l t l2 h; simp [getNextTokenFuel] at h
  | succ n ih =>
    intro l t l2 h
    simp only [getNextTokenFuel] at h
    split at h
    · rename_i hrest
      simp only [Option.some.injEq, Except.ok.injEq, Prod.mk.injEq] at h
      obtain ⟨h1, h2⟩ := h
      exact ⟨l, SkipStar.refl l, Or.inl ⟨hrest, h1.symm, h2.symm⟩⟩
    · rename_i c cs hrest
      split at h
      · rename_i hws
        obtain ⟨lm, hstar, hres⟩ := ih _ _ _ h
        exact ⟨lm, SkipStar.step _ _ _ (SkipStep.ws l c cs hrest hws) hstar, hres⟩
      · split at h
        · split at h
          · simp at h
          · rename_i l2x heq
            obtain ⟨lm, hstar, hres⟩ := ih _ _ _ h
            exact ⟨lm, SkipStar.step _ _ _ (SkipStep.comment l l2x heq) hstar, hres⟩
          · rename_i l2x heq
            have hl : l2x = l := skipComment_false heq
            rw [hl] at h
            simp only [Option.some.injEq] at h
            exact ⟨l, SkipStar.refl l, Or.inr ⟨c, cs, hrest, h⟩⟩
        · simp only [Option.some.injEq] at h
          exact ⟨l, SkipStar.refl l, Or.inr ⟨c, cs, hrest, h⟩⟩

/-- Alphabetic characters are neither whitespace nor comment openers. -/
theorem pyIsAlpha_not_special {c : Char} (h : pyIsAlpha c = true) :
    isWhitespaceChar c = false ∧ (c == '\x7b') = false ∧ (c == '(') = false := by
  refine ⟨?_, ?_, ?_⟩
  · cases hw : isWhitespaceChar c with
    | false => rfl
    | true =>
      unfold isWhitespaceChar at hw
      rcases (Bool.or_eq_true _ _).mp hw with h2 | h2
      · rcases (Bool.or_eq_true _ _).mp h2 with h3 | h3
        · have hx := eq_of_beq h3
          subst hx
          exact absurd h (by decide)
        · have hx := eq_of_beq h3
          subst hx
          exact absurd h (by decide)
      · have := eq_of_beq h2
        subst this
        exact absurd h (by decide)
  · cases hw : c == '\x7b' with
    | false => rfl
    | true =>
      have := eq_of_beq hw
      subst this
      exact absurd h (by decide)
  · cases hw : c == '(' with
    | false => rfl
    | true =>
      have := eq_of_beq hw
      subst this
      exact absurd h (by decide)

/-- Alphabetic characters are alphanumeric. -/
theorem pyIsAlpha_alnum {c : Char} (h : pyIsAlpha c = true) : pyIsAlnum c = true := by
  unfold pyIsAlnum
  rw [h]
  simp

/-- An identifier run over an entirely alphanumeric text consumes all of it and
leaves the line counter unchanged. -/
theorem idRunAux_all_alnum : ∀ (w : List Char) (line : Nat),
    (∀ c ∈ w, pyIsAlnum c = true) → idRunAux w line = (w, [], line) := by
  intro w
  induction w with
  | nil => intro line _; rfl
  | cons c cs ih =>
    intro line h
    have hc : pyIsAlnum c = true := h c (by simp)
    have hbump : bumpLine c line = line := by
      unfold bumpLine
      rw [if_neg]
      intro hx
      have := eq_of_beq hx
      exact pyIsAlnum_ne_newline hc this
    have hrec := ih (bumpLine c line) (fun x hx => h x (by simp [hx]))
    rw [hbump] at hrec
    simp [idRunAux, hc, hbump, hrec]

/-- A main-loop iteration on a non-whitespace, non-comment-opening current
character returns the dispatch result. -/
theorem getNextTokenFuel_dispatch {l : Lexer} {c : Char} {cs : List Char} (fuel : Nat)
    (hrest : l.rest = c :: cs) (hws : isWhitespaceChar c = false)
    (hbrace : (c == '\x7b') = false) (hparen0 : (c == '(') = false) :
    getNextTokenFuel (fuel + 1) l = some (dispatch c l) := by
  simp only [getNextTokenFuel, hrest, hws, hbrace, hparen0]
  simp

/-- Claim C1: of the three malformed numeric inputs, 12. at end of input and
1e+ raise the lexical MalformedNumber error carrying the current line number
and a human-readable message, but 1e does not: state 3 of the numeric state
machine at end of input evaluates the membership test on None, which raises a
Python runtime TypeError that carries no line number. -/
theorem number_malformed_inputs :
    getNextToken (mkLexer "12.") =
      .error (.lexError 1 "Dígito esperado após \x27.\x27 no número \x2712.\x27") ∧
    getNextToken (mkLexer "1e+") =
      .error (.lexError 1 "Dígito esperado após sinal do expoente em \x271e+\x27") ∧
    getNextToken (mkLexer "1e") = .error (.typeError pyMembershipTypeErrorMsg) :=
  ⟨rfl, rfl, rfl⟩

/-- Claim C2 counterexample: a string literal may span a newline, so the token
lexeme can contain a newline character, contradicting the claim that no token
lexeme does. -/
theorem literal_lexeme_contains_newline :
    getNextToken (mkLexer "\x27a\nb\x27") =
      .ok (⟨.LITERAL, "a\nb", 1⟩, { rest := [], line := 2 }) ∧
    ('\n' : Char) ∈ ("a\nb" : String).toList :=
  ⟨rfl, by decide⟩

/-- Claim C2 amended: every token other than a string or character literal has
a newline-free lexeme (literals may contain newlines), and every token is
stamped with the scanner line counter of the state, reached by whitespace and
comment skipping alone, at which recognition of the token began. -/
theorem token_line_and_literal_newlines {l l2 : Lexer} {t : Token}
    (h : getNextToken l = .ok (t, l2)) :
    (t.tipo ≠ .CAR → t.tipo ≠ .LITERAL → '\n' ∉ t.lexema.toList) ∧
    ∃ lm, SkipStar l lm ∧ t.linha = lm.line ∧
      (t.tipo = .EOF ∨ ∃ c cs, lm.rest = c :: cs ∧ dispatch c lm = .ok (t, l2)) := by
  have hf := getNextToken_spec l
  rw [h] at hf
  obtain ⟨lm, hstar, hres⟩ := fuel_decomp _ _ _ _ hf
  rcases hres with ⟨hnil, ht, hl2⟩ | ⟨c, cs, hrest, hd⟩
  · subst ht
    refine ⟨fun _ _ => ?_, lm, hstar, rfl, Or.inl rfl⟩
    show ('\n' : Char) ∉ String.toList "EOF"
    decide
  · obtain ⟨h1, h2, h3, h4⟩ := dispatch_facts hd
    exact ⟨h4, lm, hstar, h1, Or.inr ⟨c, cs, hrest, hd⟩⟩

/-- Witness for claim C2 at the one-character input x. -/
theorem token_line_and_literal_newlines_witness :
    ((⟨.ID, "x", 1⟩ : Token).tipo ≠ .CAR → (⟨.ID, "x", 1⟩ : Token).tipo ≠ .LITERAL →
      '\n' ∉ (⟨.ID, "x", 1⟩ : Token).lexema.toList) ∧
    ∃ lm, SkipStar (mkLexer "x") lm ∧ (⟨.ID, "x", 1⟩ : Token).linha = lm.line ∧
      ((⟨.ID, "x", 1⟩ : Token).tipo = .EOF ∨
       ∃ c cs, lm.rest = c :: cs ∧
         dispatch c lm = .ok (⟨.ID, "x", 1⟩, { rest := [], line := 1 })) :=
  @token_line_and_literal_newlines (mkLexer "x") { rest := [], line := 1 } ⟨.ID, "x", 1⟩ rfl

/-- Claim C3: quoted literals are classified by decoded length: a CAR token is
emitted exactly when the decoded content has one character, and the four spec
examples scan as stated. -/
theorem literal_classification_by_length :
    (∀ (l l2 : Lexer) (t : Token), getNextToken l = .ok (t, l2) →
      (t.tipo = .CAR ∨ t.tipo = .LITERAL) → (t.tipo = .CAR ↔ t.lexema.length = 1)) ∧
    getNextToken (mkLexer "\x27a\x27") = .ok (⟨.CAR, "a", 1⟩, { rest := [], line := 1 }) ∧
    getNextToken (mkLexer "\x27abc\x27") =
      .ok (⟨.LITERAL, "abc", 1⟩, { rest := [], line := 1 }) ∧
    getNextToken (mkLexer "\x27\x27\x27\x27") =
      .ok (⟨.CAR, "\x27", 1⟩, { rest := [], line := 1 }) ∧
    getNextToken (mkLexer "\x27\x27") = .ok (⟨.LITERAL, "", 1⟩, { rest := [], line := 1 }) := by
  refine ⟨?_, rfl, rfl, rfl, rfl⟩
  intro l l2 t h hlit
  have hf := getNextToken_spec l
  rw [h] at hf
  obtain ⟨lm, hstar, hres⟩ := fuel_decomp _ _ _ _ hf
  rcases hres with ⟨hnil, ht, hl2⟩ | ⟨c, cs, hrest, hd⟩
  · rw [ht] at hlit
    rcases hlit with x | x <;> simp at x
  · obtain ⟨-, -, h3, -⟩ := dispatch_facts hd
    obtain ⟨-, -, hiff⟩ := stringLiteral_facts (h3 hlit)
    exact hiff

/-- Witness for claim C3 at the input consisting of the letter a in quotes. -/
theorem literal_classification_by_length_witness :
    (⟨.CAR, "a", 1⟩ : Token).tipo = .CAR ↔ (⟨.CAR, "a", 1⟩ : Token).lexema.length = 1 :=
  literal_classification_by_length.1 (mkLexer "\x27a\x27") { rest := [], line := 1 }
    ⟨.CAR, "a", 1⟩ rfl (Or.inl rfl)

/-- Claim C4: once get_next_token has returned the EOF token, every subsequent
call returns the same EOF token (hence the same line number), never raises, and
leaves the scanner state unchanged. -/
theorem eof_idempotent {l l2 : Lexer} {t : Token}
    (h : getNextToken l = .ok (t, l2)) (heof : t.tipo = .EOF) :
    ∀ n, callFrom l2 n = .ok (t, l2) := by
  have hf := getNextToken_spec l
  rw [h] at hf
  obtain ⟨lm, hstar, hres⟩ := fuel_decomp _ _ _ _ hf
  rcases hres with ⟨hnil, ht, hl2⟩ | ⟨c, cs, hrest, hd⟩
  · rw [← hl2] at hnil ht
    have hstep : getNextToken l2 = .ok (t, l2) := by
      rw [getNextToken_nil hnil, ht]
    intro n
    induction n with
    | zero => exact hstep
    | succ m ihm =>
      show (match callFrom l2 m with
            | .ok (_, l3) => getNextToken l3
            | .error e => .error e) = .ok (t, l2)
      rw [ihm]
      exact hstep
  · obtain ⟨-, hne, -, -⟩ := dispatch_facts hd
    exact absurd heof hne

/-- Witness for claim C4 at the empty input. -/
theorem eof_idempotent_witness :
    callFrom { rest := ([] : List Char), line := 1 } 2 =
      .ok (⟨.EOF, "EOF", 1⟩, { rest := [], line := 1 }) :=
  @eof_idempotent (mkLexer "") { rest := [], line := 1 } ⟨.EOF, "EOF", 1⟩ rfl rfl 2

/-- Claim C5: scanning 1.. yields the Number token 1 followed by two Period
tokens, and in general the integer-part state of the numeric machine stops in
an accepting state, consuming neither dot, whenever the current dot is followed
by another dot. -/
theorem range_lookahead_stops_number :
    scanN 4 (mkLexer "1..") =
      .ok [⟨.NUM, "1", 1⟩, ⟨.PONTO, ".", 1⟩, ⟨.PONTO, ".", 1⟩, ⟨.EOF, "EOF", 1⟩] ∧
    ∀ (cs lexeme : List Char) (line : Nat),
      numberAux ('.' :: '.' :: cs) .s0 lexeme line = .ok (lexeme, '.' :: '.' :: cs, line) := by
  refine ⟨rfl, ?_⟩
  intro cs lexeme line
  rfl

/-- Claim C6: every reserved word in any casing scans to a keyword token of the
kind found by looking the uppercased lexeme up in RESERVED_KEYWORDS, while the
emitted lexeme keeps the original casing. -/
theorem keyword_case_preserved (w : List Char) (k : TokenType) (line : Nat)
    (hne : w ≠ []) (halpha : ∀ c ∈ w, pyIsAlpha c = true)
    (hk : reservedGet (String.mk (pyUpperList w)) = some k) :
    getNextToken { rest := w, line := line } =
      .ok (⟨k, String.mk w, line⟩, { rest := [], line := line }) := by
  obtain ⟨c, cs, rfl⟩ : ∃ c cs, w = c :: cs := by
    cases w with
    | nil => exact absurd rfl hne
    | cons c cs => exact ⟨c, cs, rfl⟩
  have hca : pyIsAlpha c = true := halpha c (by simp)
  obtain ⟨hw1, hw2, hw3⟩ := pyIsAlpha_not_special hca
  apply getNextToken_eq_of_fuel
  rw [getNextTokenFuel_dispatch _ rfl hw1 hw2 hw3]
  have hrun : idRunAux (c :: cs) line = (c :: cs, [], line) :=
    idRunAux_all_alnum _ _ (fun x hx => pyIsAlpha_alnum (halpha x hx))
  simp only [dispatch, hca, if_true]
  unfold idOrKeyword
  simp only [hrun, hk]

/-- Witness for claim C6 at the lowercase reserved word begin. -/
theorem keyword_case_preserved_witness :
    getNextToken { rest := "begin".toList, line := 1 } =
      .ok (⟨.BEGIN, String.mk "begin".toList, 1⟩, { rest := [], line := 1 }) :=
  keyword_case_preserved "begin".toList .BEGIN 1 (by decide) (by decide) (by decide)

/-- Claim C7 counterexample: the accented letter e-acute is alphabetic for
Python, so the scanner emits an Identifier token for it instead of rejecting it
with UnexpectedCharacter as the claim states. -/
theorem nonascii_letter_starts_identifier :
    getNextToken (mkLexer "é") = .ok (⟨.ID, "é", 1⟩, { rest := [], line := 1 }) :=
  rfl

/-- Claim C7 amended: character classification follows the Unicode-aware Python
predicates, not ASCII: a non-ASCII letter starts an identifier, a non-ASCII
digit continues a number, and a character matching no recognition rule is
rejected with UnexpectedCharacter carrying the character and the line. -/
theorem unicode_classification :
    getNextToken (mkLexer "é") = .ok (⟨.ID, "é", 1⟩, { rest := [], line := 1 }) ∧
    getNextToken (mkLexer "1²") = .ok (⟨.NUM, "1²", 1⟩, { rest := [], line := 1 }) ∧
    getNextToken (mkLexer "@") = .error (.lexError 1 "Caractere inesperado: \x27@\x27") :=
  ⟨rfl, rfl, rfl⟩

/-- Claim C8: comments of both syntaxes are skipped transparently, producing
the keyword VAR and the identifier x with no token for the comment, and a lone
opening parenthesis is not a comment opener but scans as a left-parenthesis
token. -/
theorem comment_transparency :
    scanN 3 (mkLexer "VAR \x7bcomment\x7d x") =
      .ok [⟨.VAR, "VAR", 1⟩, ⟨.ID, "x", 1⟩, ⟨.EOF, "EOF", 1⟩] ∧
    scanN 3 (mkLexer "VAR(*c*) x") =
      .ok [⟨.VAR, "VAR", 1⟩, ⟨.ID, "x", 1⟩, ⟨.EOF, "EOF", 1⟩] ∧
    getNextToken (mkLexer "(x") = .ok (⟨.ABRE_PAR, "(", 1⟩, { rest := ['x'], line := 1 }) :=
  ⟨rfl, rfl, rfl⟩

/-- Claim C9: the input of a colon followed by an equals sign scans to the
single AssignOp token, and a colon not followed by an equals sign scans to a
standalone Colon token. -/
theorem assign_longest_match :
    scanN 2 (mkLexer ":=") = .ok [⟨.OPASIGNA, ":=", 1⟩, ⟨.EOF, "EOF", 1⟩] ∧
    ∀ (cs : List Char) (line : Nat), cs.head? ≠ some '=' →
      getNextToken { rest := ':' :: cs, line := line } =
        .ok (⟨.DOIS_PONTOS, ":", line⟩, { rest := cs, line := line }) := by
  refine ⟨rfl, ?_⟩
  intro cs line h
  have hb : (cs.head? == some '=') = false := beq_eq_false_iff_ne.mpr h
  apply getNextToken_eq_of_fuel
  rw [getNextTokenFuel_dispatch _ rfl (by decide) (by decide) (by decide)]
  have hpeek : peek { rest := ':' :: cs, line := line } = cs.head? := rfl
  have e1 : pyIsAlpha ':' = false := by decide
  have e2 : pyIsDigit ':' = false := by decide
  have e3 : ((':' : Char) == '\x27') = false := by decide
  have e7 : singleGet ':' = some TokenType.DOIS_PONTOS := rfl
  simp only [dispatch, e1, e2, e3, hpeek, hb, e7, Bool.and_false, Bool.false_eq_true,
             if_false]
  rfl

/-- Witness for claim C9 at a colon followed by the letter x. -/
theorem assign_longest_match_witness :
    getNextToken { rest := [':', 'x'], line := 1 } =
      .ok (⟨.DOIS_PONTOS, ":", 1⟩, { rest := ['x'], line := 1 }) :=
  assign_longest_match.2 ['x'] 1 (by decide)

/-- Claim C10: every call of get_next_token terminates: all inner loops are
structurally recursive on the remaining text, and the fuelled main loop,
given fuel one more than the length of the remaining text, always returns a
result, which is the value of getNextToken. -/
theorem scanner_terminates (l : Lexer) :
    getNextTokenFuel (l.rest.length + 1) l = some (getNextToken l) :=
  getNextToken_spec l

end Compilador
